import Mathlib

/-!
Shallow embedding of the car-wash discrete-time queueing simulation
(`src/car-wash.py`) and verification of its specification.

Modelling conventions:
* Python integers become `ℕ` (all integer quantities in the program are
  non-negative ticks or counts); recorded wait times and probabilities
  become `ℚ` (the Python floats stand for exact real arithmetic here).
* `random.random()` draws are made explicit: every function that draws is
  parameterised by the draw (a `ℚ`), and the simulation loop by a stream
  `draws : ℕ → ℚ` giving the draw consumed at each tick.
* Python's `None` fall-through return of `ArrivalGenerator.query` is
  modelled by `Option Bool` (`none` = the implicit `None`).
* The `ZeroDivisionError` that Python's `/` raises on a zero denominator
  is modelled by `Except SimError` in `AverageTracker.average` and in the
  functions calling it.
* `collections.deque` is modelled as a `List ℕ`: `appendleft` is `cons`
  (the head is the left end), `pop` removes the right end
  (`getLastD` / `dropLast`).
-/

/-- `class Washer`: `wash_time` and `time_until_done` attributes. -/
structure Washer where
  wash_time : ℕ
  time_until_done : ℕ
deriving DecidableEq, Repr

/-- `Washer.__init__(wash_time)`: `time_until_done` starts at `0`. -/
def Washer.init (wash_time : ℕ) : Washer :=
  { wash_time := wash_time, time_until_done := 0 }

/-- `Washer.is_busy`: `True` if `time_until_done != 0` else `False`. -/
def Washer.is_busy (w : Washer) : Bool :=
  if w.time_until_done ≠ 0 then true else false

/-- `Washer.start_washing`: if not busy, set `time_until_done = wash_time`. -/
def Washer.start_washing (w : Washer) : Washer :=
  if w.is_busy = false then { w with time_until_done := w.wash_time } else w

/-- `Washer.one_second`: if `time_until_done != 0`, decrement it. -/
def Washer.one_second (w : Washer) : Washer :=
  if w.time_until_done ≠ 0 then { w with time_until_done := w.time_until_done - 1 } else w

/-- `ArrivalGenerator.query(self)` with the fresh `random.random()` draw made
explicit: `while self.probability >= random.random(): return True` returns
`True` when `prob ≥ draw` and otherwise falls through returning `None`. -/
def ArrivalGenerator.query (prob draw : ℚ) : Option Bool :=
  if prob ≥ draw then some true else none

/-- The error raised by Python's `/` on a zero denominator. -/
inductive SimError where
  | zeroDivisionError
deriving DecidableEq, Repr

/-- `class AverageTracker`: running `count` and `sum_`. -/
structure AverageTracker where
  count : ℕ
  sum_ : ℚ
deriving DecidableEq, Repr

/-- `AverageTracker.__init__`: both accumulators start at zero. -/
def AverageTracker.init : AverageTracker :=
  { count := 0, sum_ := 0 }

/-- `AverageTracker.next_value(val)`: add `val` to `sum_`, increment `count`. -/
def AverageTracker.next_value (a : AverageTracker) (val : ℚ) : AverageTracker :=
  { count := a.count + 1, sum_ := a.sum_ + val }

/-- `AverageTracker.average`: `sum_ / count`; Python `/` raises
`ZeroDivisionError` when `count == 0`. -/
def AverageTracker.average (a : AverageTracker) : Except SimError ℚ :=
  if a.count = 0 then .error .zeroDivisionError else .ok (a.sum_ / (a.count : ℚ))

/-- `AverageTracker.number_of_values`: return `count`. -/
def AverageTracker.number_of_values (a : AverageTracker) : ℕ :=
  a.count

/-- The mutable state of one `simulation(...)` run: the washer, the average
tracker, and the waiting deque of arrival timestamps (head = left end). -/
structure SimState where
  ws : Washer
  avg_wash_time : AverageTracker
  wash_deque : List ℕ
deriving DecidableEq, Repr

/-- The state set up by `simulation` before the loop. -/
def SimState.init (wash_time : ℕ) : SimState :=
  { ws := Washer.init wash_time, avg_wash_time := AverageTracker.init, wash_deque := [] }

/-- Loop body, first statement: `if arg.query() == True: wash_deque.appendleft(current_second)`.
Note `None == True` is `False` in Python, so the guard is `query ... = some true`. -/
def arrivalStep (prob draw : ℚ) (t : ℕ) (s : SimState) : SimState :=
  if ArrivalGenerator.query prob draw = some true then
    { s with wash_deque := t :: s.wash_deque }
  else s

/-- Loop body, second statement: if the washer is idle and the deque non-empty,
`pop()` the right end (`timestamp`), record `current_second - timestamp`, and
`start_washing()`. -/
def dispatchStep (t : ℕ) (s : SimState) : SimState :=
  if s.ws.is_busy = false ∧ s.wash_deque.length ≠ 0 then
    { ws := s.ws.start_washing,
      avg_wash_time := s.avg_wash_time.next_value ((t : ℚ) - (s.wash_deque.getLastD 0 : ℚ)),
      wash_deque := s.wash_deque.dropLast }
  else s

/-- Loop body, last statement: `ws.one_second()`. -/
def advanceStep (s : SimState) : SimState :=
  { s with ws := s.ws.one_second }

/-- One iteration of `for current_second in range(simulation_time)`:
arrival, then dispatch, then tick advance, in this order. -/
def tickStep (prob : ℚ) (draws : ℕ → ℚ) (t : ℕ) (s : SimState) : SimState :=
  advanceStep (dispatchStep t (arrivalStep prob (draws t) t s))

/-- State after iterations `0 .. n-1` of the simulation loop. -/
def loopState (prob : ℚ) (wash_time : ℕ) (draws : ℕ → ℚ) : ℕ → SimState
  | 0 => SimState.init wash_time
  | n + 1 => tickStep prob draws n (loopState prob wash_time draws n)

/-- `simulation(prob, simulation_time, wash_time)`: run the loop, then return
`(count, avg_time)`; computing `avg_time = avg_wash_time.average()` raises
`ZeroDivisionError` when no car was washed. -/
def simulation (prob : ℚ) (simulation_time wash_time : ℕ) (draws : ℕ → ℚ) :
    Except SimError (ℕ × ℚ) :=
  let s := loopState prob wash_time draws simulation_time
  match s.avg_wash_time.average with
  | .error e => .error e
  | .ok avg_time => .ok (s.avg_wash_time.number_of_values, avg_time)

/-- The loop of `ten_thousand_runs`, generalised over the number of runs and
the simulation parameters: run `simulation` once per run index (run `i`
consuming draw stream `draws i`), appending each run's count and average to
the two result lists. -/
def montecarlo (prob : ℚ) (simulation_time wash_time : ℕ) (draws : ℕ → ℕ → ℚ) :
    ℕ → Except SimError (List ℕ × List ℚ)
  | 0 => .ok ([], [])
  | n + 1 =>
    match montecarlo prob simulation_time wash_time draws n with
    | .error e => .error e
    | .ok (counts, averages) =>
      match simulation prob simulation_time wash_time (draws n) with
      | .error e => .error e
      | .ok (count, avg_time) => .ok (counts ++ [count], averages ++ [avg_time])

/-- `ten_thousand_runs()`: 10000 runs of `simulation(0.004, 6000, 150)`. -/
def ten_thousand_runs (draws : ℕ → ℕ → ℚ) : Except SimError (List ℕ × List ℚ) :=
  montecarlo (4 / 1000) 6000 150 draws 10000

/-! ### Helper lemmas -/

instance exceptDecidableEq {ε α : Type} [DecidableEq ε] [DecidableEq α] :
    DecidableEq (Except ε α) := fun x y =>
  match x, y with
  | .error e, .error e' =>
    if h : e = e' then .isTrue (by rw [h]) else .isFalse (fun hc => h (Except.error.inj hc))
  | .error _, .ok _ => .isFalse (fun hc => Except.noConfusion hc)
  | .ok _, .error _ => .isFalse (fun hc => Except.noConfusion hc)
  | .ok a, .ok a' =>
    if h : a = a' then .isTrue (by rw [h]) else .isFalse (fun hc => h (Except.ok.inj hc))

theorem Washer.one_second_iterate (k : ℕ) (w : Washer) :
    Washer.one_second^[k] w =
      { wash_time := w.wash_time, time_until_done := w.time_until_done - k } := by
  induction k generalizing w with
  | zero => simp
  | succ k ih =>
    rw [Function.iterate_succ_apply, ih]
    unfold Washer.one_second
    by_cases h : w.time_until_done = 0
    · simp [h]
    · simp only [h, if_pos, ne_eq, not_false_iff, if_true]
      congr 1
      omega

@[simp] theorem advanceStep_deque (s : SimState) : (advanceStep s).wash_deque = s.wash_deque :=
  rfl

@[simp] theorem advanceStep_tracker (s : SimState) :
    (advanceStep s).avg_wash_time = s.avg_wash_time :=
  rfl

theorem arrivalStep_ws (prob draw : ℚ) (t : ℕ) (s : SimState) :
    (arrivalStep prob draw t s).ws = s.ws := by
  unfold arrivalStep
  split <;> rfl

theorem arrivalStep_tracker (prob draw : ℚ) (t : ℕ) (s : SimState) :
    (arrivalStep prob draw t s).avg_wash_time = s.avg_wash_time := by
  unfold arrivalStep
  split <;> rfl

theorem arrivalStep_deque (prob draw : ℚ) (t : ℕ) (s : SimState) :
    (arrivalStep prob draw t s).wash_deque = t :: s.wash_deque ∨
    (arrivalStep prob draw t s).wash_deque = s.wash_deque := by
  unfold arrivalStep
  split
  · exact Or.inl rfl
  · exact Or.inr rfl

theorem dispatchStep_deque (t : ℕ) (s : SimState) :
    (dispatchStep t s).wash_deque = s.wash_deque.dropLast ∨
    (dispatchStep t s).wash_deque = s.wash_deque := by
  unfold dispatchStep
  split
  · exact Or.inl rfl
  · exact Or.inr rfl

/-- Unconditional description of the dispatch step: when the washer is idle
and the deque non-empty it pops the right end, records the wait, and starts
the wash; otherwise it changes nothing. -/
theorem dispatchStep_spec (t : ℕ) (s : SimState) :
    (s.ws.is_busy = false → s.wash_deque.length ≠ 0 →
      dispatchStep t s =
        { ws := s.ws.start_washing,
          avg_wash_time :=
            s.avg_wash_time.next_value ((t : ℚ) - (s.wash_deque.getLastD 0 : ℚ)),
          wash_deque := s.wash_deque.dropLast }) ∧
    ((s.ws.is_busy = true ∨ s.wash_deque.length = 0) → dispatchStep t s = s) := by
  constructor
  · intro hb hne
    unfold dispatchStep
    rw [if_pos ⟨hb, hne⟩]
  · intro h
    unfold dispatchStep
    rw [if_neg]
    rintro ⟨hb, hne⟩
    rcases h with h | h
    · rw [h] at hb; cases hb
    · exact hne h

/-- In a list strictly decreasing from left to right, the right end
(`getLastD` — what `deque.pop()` returns) is the minimum. -/
theorem getLastD_min_of_pairwise :
    ∀ (l : List ℕ) (a : ℕ), (a :: l).Pairwise (· > ·) →
      ∀ x ∈ a :: l, (a :: l).getLastD 0 ≤ x := by
  intro l
  induction l with
  | nil =>
    intro a _ x hx
    rw [List.mem_singleton.mp hx]
    simp [List.getLastD_cons, List.getLastD_nil]
  | cons b l ih =>
    intro a hp x hx
    have hck : (a :: b :: l).getLastD 0 = (b :: l).getLastD 0 :=
      ((List.getLastD_cons 0 a (b :: l)).trans (List.getLastD_cons a b l)).trans
        (List.getLastD_cons 0 b l).symm
    rw [hck]
    rcases List.mem_cons.mp hx with rfl | hx'
    · have hmem : (b :: l).getLastD 0 ∈ b :: l := by
        rw [List.getLastD_cons]
        exact List.getLastD_mem_cons l b
      exact le_of_lt (List.rel_of_pairwise_cons hp hmem)
    · exact ih b hp.of_cons x hx'

/-- Run invariant: at the start of tick `n` the deque holds timestamps of
earlier ticks, strictly decreasing from the left (newest) to the right
(oldest) end — arrivals `appendleft` ever-larger ticks. -/
theorem loopState_deque_inv (prob : ℚ) (wt : ℕ) (draws : ℕ → ℚ) :
    ∀ n, (loopState prob wt draws n).wash_deque.Pairwise (· > ·) ∧
      ∀ x ∈ (loopState prob wt draws n).wash_deque, x < n := by
  intro n
  induction n with
  | zero =>
    constructor
    · exact List.Pairwise.nil
    · intro x hx
      simp [loopState, SimState.init] at hx
  | succ n ih =>
    obtain ⟨hp, hb⟩ := ih
    have hpa : (arrivalStep prob (draws n) n (loopState prob wt draws n)).wash_deque.Pairwise
          (· > ·) ∧
        ∀ x ∈ (arrivalStep prob (draws n) n (loopState prob wt draws n)).wash_deque,
          x < n + 1 := by
      rcases arrivalStep_deque prob (draws n) n (loopState prob wt draws n) with h | h <;>
        rw [h]
      · refine ⟨List.pairwise_cons.mpr ⟨fun x hx => hb x hx, hp⟩, ?_⟩
        intro x hx
        rcases List.mem_cons.mp hx with rfl | hx'
        · omega
        · exact Nat.lt_succ_of_lt (hb x hx')
      · exact ⟨hp, fun x hx => Nat.lt_succ_of_lt (hb x hx)⟩
    rw [loopState]
    unfold tickStep
    rw [advanceStep_deque]
    rcases dispatchStep_deque n (arrivalStep prob (draws n) n (loopState prob wt draws n)) with
      h | h <;> rw [h]
    · exact ⟨hpa.1.sublist (List.dropLast_sublist _),
        fun x hx => hpa.2 x (List.dropLast_subset _ hx)⟩
    · exact hpa

/-- The deque just after the arrival step of tick `t` of the run is still
strictly decreasing left-to-right. -/
theorem postArrival_deque_pairwise (prob : ℚ) (wt : ℕ) (draws : ℕ → ℚ) (t : ℕ) :
    (arrivalStep prob (draws t) t (loopState prob wt draws t)).wash_deque.Pairwise (· > ·) := by
  obtain ⟨hp, hb⟩ := loopState_deque_inv prob wt draws t
  rcases arrivalStep_deque prob (draws t) t (loopState prob wt draws t) with h | h <;> rw [h]
  · exact List.pairwise_cons.mpr ⟨fun x hx => hb x hx, hp⟩
  · exact hp

/-- Evaluation of the one-tick run with certain arrival: the tick-0 customer
is dispatched at tick 0 with wait 0, whatever the service duration. -/
theorem simulation_one_tick_certain (wt : ℕ) (draws : ℕ → ℚ) (h1 : draws 0 < 1) :
    simulation 1 1 wt draws = .ok (1, 0) := by
  have hq0 : ArrivalGenerator.query 1 (draws 0) = some true := by
    unfold ArrivalGenerator.query
    rw [if_pos (le_of_lt h1)]
  simp only [simulation]
  rw [loopState, loopState]
  unfold tickStep arrivalStep dispatchStep advanceStep
  rw [if_pos hq0]
  norm_num [SimState.init, Washer.init, Washer.is_busy, Washer.start_washing, Washer.one_second,
    AverageTracker.init, AverageTracker.next_value, AverageTracker.average,
    AverageTracker.number_of_values, List.getLastD_cons, List.getLastD_nil]

theorem loopState_prob_zero (wash_time : ℕ) (draws : ℕ → ℚ) (h : ∀ n, 0 < draws n) :
    ∀ n, loopState 0 wash_time draws n = SimState.init wash_time := by
  intro n
  induction n with
  | zero => rfl
  | succ n ih =>
    rw [loopState, ih]
    have hq : ¬ ArrivalGenerator.query 0 (draws n) = some true := by
      unfold ArrivalGenerator.query
      rw [if_neg (not_le.mpr (h n))]
      simp
    unfold tickStep arrivalStep dispatchStep advanceStep
    simp [hq, SimState.init, Washer.init, Washer.one_second]

/-! ### Claims -/

/-- C4: `AverageTracker.average()` returns `sum_ / count` when `count > 0`
and fails with `ZeroDivisionError` when `count = 0`. (The method reads the
tracker and mutates nothing, so in this pure embedding it is a function of
the state returning only the result — the state is untouched by the failure
by construction.) -/
theorem averageTracker_average_spec (a : AverageTracker) :
    (a.count ≠ 0 → a.average = .ok (a.sum_ / (a.count : ℚ))) ∧
    (a.count = 0 → a.average = .error .zeroDivisionError) := by
  constructor
  · intro h
    simp [AverageTracker.average, h]
  · intro h
    simp [AverageTracker.average, h]

theorem averageTracker_average_spec_witness :
    (AverageTracker.mk 2 5).average = .ok (5 / 2) ∧
    AverageTracker.init.average = .error .zeroDivisionError := by
  refine ⟨?_, ?_⟩
  · have h := (averageTracker_average_spec (AverageTracker.mk 2 5)).1 (by decide)
    simpa using h
  · exact (averageTracker_average_spec AverageTracker.init).2 rfl

/-- C6: calling `start_washing()` on a busy washer changes nothing: neither
`time_until_done` nor `wash_time` is modified. -/
theorem start_washing_busy_noop (w : Washer) (h : 0 < w.time_until_done) :
    w.start_washing = w := by
  unfold Washer.start_washing Washer.is_busy
  have h' : w.time_until_done ≠ 0 := Nat.pos_iff_ne_zero.mp h
  simp [h']

theorem start_washing_busy_noop_witness :
    0 < (Washer.mk 5 3).time_until_done ∧ (Washer.mk 5 3).start_washing = Washer.mk 5 3 :=
  ⟨by decide, start_washing_busy_noop (Washer.mk 5 3) (by decide)⟩

/-- C5: for `d > 0`, a fresh `Washer d` is not busy; after `start_washing()`
it is busy and stays busy after `k < d` further `one_second()` calls, and is
no longer busy after `m ≥ d` calls (in particular it becomes idle exactly on
the `d`-th call and stays idle under further calls). -/
theorem washer_service_countdown (d : ℕ) (hd : 0 < d) :
    (Washer.init d).is_busy = false ∧
    (Washer.init d).start_washing.is_busy = true ∧
    (∀ k, k < d → (Washer.one_second^[k] (Washer.init d).start_washing).is_busy = true) ∧
    (∀ m, d ≤ m → (Washer.one_second^[m] (Washer.init d).start_washing).is_busy = false) := by
  have hstart : (Washer.init d).start_washing =
      { wash_time := d, time_until_done := d } := by
    simp [Washer.init, Washer.start_washing, Washer.is_busy]
  refine ⟨by simp [Washer.init, Washer.is_busy], ?_, ?_, ?_⟩
  · rw [hstart]
    simp [Washer.is_busy]
    omega
  · intro k hk
    rw [hstart, Washer.one_second_iterate]
    simp [Washer.is_busy]
    omega
  · intro m hm
    rw [hstart, Washer.one_second_iterate]
    simp [Washer.is_busy]
    omega

theorem washer_service_countdown_witness :
    (0 : ℕ) < 3 ∧
    (Washer.init 3).is_busy = false ∧
    (Washer.one_second^[2] (Washer.init 3).start_washing).is_busy = true ∧
    (Washer.one_second^[3] (Washer.init 3).start_washing).is_busy = false := by
  have h := washer_service_countdown 3 (by decide)
  exact ⟨by decide, h.1, h.2.2.1 2 (by decide), h.2.2.2 3 (by decide)⟩

/-- C1 counterexample: at `arrivalProbability = 0` with draw exactly `0` — a
legal value of `[0, 1)` that is not strictly less than the probability —
`query` returns `True`; so it is not the case that every call at probability
`0` returns false, nor that true requires `draw < probability`. -/
theorem query_zero_prob_counterexample :
    ArrivalGenerator.query 0 0 = some true ∧ ¬ ((0 : ℚ) < 0) :=
  ⟨by simp [ArrivalGenerator.query], lt_irrefl 0⟩

/-- C1 (amended): `query()` returns true exactly when the fresh uniform draw
in `[0, 1)` is less than **or equal to** `arrivalProbability` (and otherwise
returns Python `None`, never `False`); for `arrivalProbability = 1` every
call returns true regardless of the draw; for `arrivalProbability = 0` a
call returns true precisely when the draw is exactly `0`. -/
theorem query_semantics (prob draw : ℚ) (h0 : 0 ≤ draw) (h1 : draw < 1) :
    (ArrivalGenerator.query prob draw = some true ↔ draw ≤ prob) ∧
    (prob = 1 → ArrivalGenerator.query prob draw = some true) ∧
    (prob = 0 → (ArrivalGenerator.query prob draw = some true ↔ draw = 0)) ∧
    ArrivalGenerator.query prob draw ≠ some false := by
  by_cases h : draw ≤ prob
  · have hq : ArrivalGenerator.query prob draw = some true := by
      simp [ArrivalGenerator.query, ge_iff_le, h]
    refine ⟨by simp [hq, h], fun _ => hq, fun hp => ?_, by simp [hq]⟩
    subst hp
    simp [hq]
    exact le_antisymm h h0
  · have hq : ArrivalGenerator.query prob draw = none := by
      simp [ArrivalGenerator.query, ge_iff_le, h]
    refine ⟨by simp [hq, h], fun hp => ?_, fun hp => ?_, by simp [hq]⟩
    · subst hp
      exact absurd (le_of_lt h1) h
    · subst hp
      simp [hq]
      intro hdz
      exact h (le_of_eq hdz)

theorem query_semantics_witness :
    (0 : ℚ) ≤ 1 / 2 ∧ (1 / 2 : ℚ) < 1 ∧
    ((ArrivalGenerator.query 1 (1 / 2) = some true ↔ (1 / 2 : ℚ) ≤ 1) ∧
     ((1 : ℚ) = 1 → ArrivalGenerator.query 1 (1 / 2) = some true) ∧
     ((1 : ℚ) = 0 → (ArrivalGenerator.query 1 (1 / 2) = some true ↔ (1 / 2 : ℚ) = 0)) ∧
     ArrivalGenerator.query 1 (1 / 2) ≠ some false) :=
  ⟨by norm_num, by norm_num, query_semantics 1 (1 / 2) (by norm_num) (by norm_num)⟩

/-- C2: when the draw exceeds the probability, `query` falls through its
`while` loop and returns Python `None` (modelled `none`), not `False`:
e.g. at `prob = 1/2`, draw `3/4`. -/
theorem query_returns_none_not_false :
    ArrivalGenerator.query (1 / 2) (3 / 4) = none ∧
    ArrivalGenerator.query (1 / 2) (3 / 4) ≠ some false := by
  have hq : ArrivalGenerator.query (1 / 2) (3 / 4) = none := by
    norm_num [ArrivalGenerator.query]
  exact ⟨hq, by rw [hq]; simp⟩

/-- C3 counterexample: with `arrivalProbability = 0`, `simulationTicks = 100`,
`serviceDuration = 10` and the (generic) draw stream constantly `1/2`, the
run does not complete with `servedCount = 0`: it raises `ZeroDivisionError`
when computing the average, returning no count at all. -/
theorem simulation_prob_zero_counterexample :
    ¬ ∃ avg : ℚ, simulation 0 100 10 (fun _ => 1 / 2) = Except.ok (0, avg) := by
  rintro ⟨avg, h⟩
  have hs := loopState_prob_zero 10 (fun _ => 1 / 2) (fun _ => by norm_num) 100
  unfold simulation at h
  rw [hs] at h
  exact Except.noConfusion h

/-- C3 (amended): with `arrivalProbability = 0` and every draw nonzero, no
customer is ever enqueued or served (the deque stays empty and the
statistic's count stays `0` through all 100 ticks), but the run does not
return that count: the final `average()` call fails with `ZeroDivisionError`
and the run raises instead of completing. -/
theorem simulation_prob_zero_raises (draws : ℕ → ℚ) (h : ∀ n, 0 < draws n) :
    (loopState 0 10 draws 100).wash_deque = [] ∧
    (loopState 0 10 draws 100).avg_wash_time.count = 0 ∧
    simulation 0 100 10 draws = .error .zeroDivisionError := by
  have hs := loopState_prob_zero 10 draws h 100
  refine ⟨by rw [hs]; rfl, by rw [hs]; rfl, ?_⟩
  unfold simulation
  rw [hs]
  rfl

theorem simulation_prob_zero_raises_witness :
    (loopState 0 10 (fun _ => 1 / 2) 100).wash_deque = [] ∧
    (loopState 0 10 (fun _ => 1 / 2) 100).avg_wash_time.count = 0 ∧
    simulation 0 100 10 (fun _ => 1 / 2) = .error .zeroDivisionError :=
  simulation_prob_zero_raises (fun _ => 1 / 2) (fun _ => by norm_num)

/-- C7: at any tick `t` of the simulation loop (state just after that tick's
arrival step), if the washer is not busy and the deque is non-empty, the
dispatch step removes the right-end timestamp — which is the oldest (minimum)
timestamp in the queue, so service is first-in first-out over the whole
run — records `t - timestamp` into the tracker, and starts the wash; if the
washer is busy or the deque is empty, the dispatch step changes nothing (no
dequeue, no record). -/
theorem dispatch_fifo (prob : ℚ) (wash_time : ℕ) (draws : ℕ → ℚ) (t : ℕ) (s : SimState)
    (hs : s = arrivalStep prob (draws t) t (loopState prob wash_time draws t)) :
    (s.ws.is_busy = false → s.wash_deque.length ≠ 0 →
      (∀ x ∈ s.wash_deque, s.wash_deque.getLastD 0 ≤ x) ∧
      dispatchStep t s =
        { ws := s.ws.start_washing,
          avg_wash_time :=
            s.avg_wash_time.next_value ((t : ℚ) - (s.wash_deque.getLastD 0 : ℚ)),
          wash_deque := s.wash_deque.dropLast }) ∧
    ((s.ws.is_busy = true ∨ s.wash_deque.length = 0) → dispatchStep t s = s) := by
  subst hs
  refine ⟨fun hb hne => ⟨?_, (dispatchStep_spec t _).1 hb hne⟩, (dispatchStep_spec t _).2⟩
  have hpa := postArrival_deque_pairwise prob wash_time draws t
  rcases hde : (arrivalStep prob (draws t) t (loopState prob wash_time draws t)).wash_deque with
    _ | ⟨a, l⟩
  · intro x hx
    exact absurd hx (List.not_mem_nil x)
  · rw [hde] at hpa
    exact getLastD_min_of_pairwise l a hpa

theorem dispatch_fifo_witness :
    (((arrivalStep 1 0 0 (loopState 1 5 (fun _ => 0) 0)).ws.is_busy = false →
      (arrivalStep 1 0 0 (loopState 1 5 (fun _ => 0) 0)).wash_deque.length ≠ 0 →
      (∀ x ∈ (arrivalStep 1 0 0 (loopState 1 5 (fun _ => 0) 0)).wash_deque,
        (arrivalStep 1 0 0 (loopState 1 5 (fun _ => 0) 0)).wash_deque.getLastD 0 ≤ x) ∧
      dispatchStep 0 (arrivalStep 1 0 0 (loopState 1 5 (fun _ => 0) 0)) =
        { ws := (arrivalStep 1 0 0 (loopState 1 5 (fun _ => 0) 0)).ws.start_washing,
          avg_wash_time :=
            (arrivalStep 1 0 0 (loopState 1 5 (fun _ => 0) 0)).avg_wash_time.next_value
              (((0 : ℕ) : ℚ) -
                ((arrivalStep 1 0 0 (loopState 1 5 (fun _ => 0) 0)).wash_deque.getLastD 0 : ℚ)),
          wash_deque :=
            (arrivalStep 1 0 0 (loopState 1 5 (fun _ => 0) 0)).wash_deque.dropLast }) ∧
     (((arrivalStep 1 0 0 (loopState 1 5 (fun _ => 0) 0)).ws.is_busy = true ∨
        (arrivalStep 1 0 0 (loopState 1 5 (fun _ => 0) 0)).wash_deque.length = 0) →
      dispatchStep 0 (arrivalStep 1 0 0 (loopState 1 5 (fun _ => 0) 0)) =
        arrivalStep 1 0 0 (loopState 1 5 (fun _ => 0) 0))) :=
  dispatch_fifo 1 5 (fun _ => 0) 0 (arrivalStep 1 0 0 (loopState 1 5 (fun _ => 0) 0)) rfl

/-- C8: within a tick the order is arrival, then dispatch, then tick-advance:
a customer arriving at tick `t` into an idle washer and empty queue is
dispatched the same tick with wait time `0`; in particular
`simulation(prob=1, ticks=1, wash_time=100)` serves exactly one customer with
recorded (and hence average) wait time `0`. -/
theorem same_tick_service (draws : ℕ → ℚ) (p : ℚ) (t : ℕ) (s : SimState)
    (h1 : draws 0 < 1) (hb : s.ws.is_busy = false) (hq : s.wash_deque = [])
    (ha : ArrivalGenerator.query p (draws t) = some true) :
    (tickStep p draws t s).avg_wash_time = s.avg_wash_time.next_value 0 ∧
    simulation 1 1 100 draws = .ok (1, 0) := by
  constructor
  · unfold tickStep
    rw [advanceStep_tracker]
    have harr : arrivalStep p (draws t) t s = { s with wash_deque := t :: s.wash_deque } := by
      unfold arrivalStep
      rw [if_pos ha]
    rw [harr, hq]
    unfold dispatchStep
    rw [if_pos ⟨hb, by simp⟩]
    simp [List.getLastD_cons, List.getLastD_nil, sub_self]
  · exact simulation_one_tick_certain 100 draws h1

theorem same_tick_service_witness :
    (tickStep 1 (fun _ => 1 / 2) 5 (SimState.init 7)).avg_wash_time =
      (SimState.init 7).avg_wash_time.next_value 0 ∧
    simulation 1 1 100 (fun _ => 1 / 2) = .ok (1, 0) :=
  same_tick_service (fun _ => 1 / 2) 1 5 (SimState.init 7) (by norm_num) rfl rfl
    (by norm_num [ArrivalGenerator.query])

theorem dispatchStep_count_le (t : ℕ) (s : SimState) :
    (dispatchStep t s).avg_wash_time.count ≤ s.avg_wash_time.count + 1 := by
  unfold dispatchStep
  split
  · simp [AverageTracker.next_value]
  · omega

theorem loopState_count_le (prob : ℚ) (wt : ℕ) (draws : ℕ → ℚ) :
    ∀ n, (loopState prob wt draws n).avg_wash_time.count ≤ n := by
  intro n
  induction n with
  | zero => exact Nat.le_refl 0
  | succ n ih =>
    rw [loopState]
    unfold tickStep
    rw [advanceStep_tracker]
    have h1 := dispatchStep_count_le n (arrivalStep prob (draws n) n (loopState prob wt draws n))
    rw [arrivalStep_tracker] at h1
    omega

/-- C10: at most one value is recorded per tick, so any completed run has
`servedCount ≤ simulationTicks`. -/
theorem servedCount_le_ticks (prob : ℚ) (st wt : ℕ) (draws : ℕ → ℚ) (c : ℕ) (a : ℚ)
    (h : simulation prob st wt draws = .ok (c, a)) : c ≤ st := by
  simp only [simulation] at h
  cases havg : (loopState prob wt draws st).avg_wash_time.average with
  | error e =>
    rw [havg] at h
    simp at h
  | ok avg =>
    rw [havg] at h
    simp only [Except.ok.injEq, Prod.mk.injEq] at h
    obtain ⟨h1, -⟩ := h
    rw [← h1, AverageTracker.number_of_values]
    exact loopState_count_le prob wt draws st

theorem servedCount_le_ticks_witness :
    simulation 1 1 100 (fun _ => 1 / 2) = .ok (1, 0) ∧ (1 : ℕ) ≤ 1 := by
  have h : simulation 1 1 100 (fun _ => 1 / 2) = .ok (1, 0) :=
    simulation_one_tick_certain 100 (fun _ => 1 / 2) (by norm_num)
  exact ⟨h, servedCount_le_ticks 1 1 100 (fun _ => 1 / 2) 1 0 h⟩

/-- C9: whenever the Monte Carlo loop over `n` runs returns, the two result
lists both have length exactly `n` and are index-aligned: entry `i` of each
is the count / average returned by the `i`-th `simulation` run. -/
theorem montecarlo_aligned (prob : ℚ) (st wt : ℕ) (draws : ℕ → ℕ → ℚ) :
    ∀ (n : ℕ) (counts : List ℕ) (averages : List ℚ),
      montecarlo prob st wt draws n = .ok (counts, averages) →
      counts.length = n ∧ averages.length = n ∧
      ∀ i, i < n →
        simulation prob st wt (draws i) = .ok (counts.getD i 0, averages.getD i 0) := by
  intro n
  induction n with
  | zero =>
    intro counts averages h
    rw [montecarlo] at h
    injection h with h
    injection h with hc ha
    subst hc
    subst ha
    exact ⟨rfl, rfl, fun i hi => absurd hi (Nat.not_lt_zero i)⟩
  | succ n ih =>
    intro counts averages h
    rw [montecarlo] at h
    cases hmc : montecarlo prob st wt draws n with
    | error e =>
      rw [hmc] at h
      simp at h
    | ok pr =>
      obtain ⟨cs, as⟩ := pr
      rw [hmc] at h
      cases hsim : simulation prob st wt (draws n) with
      | error e =>
        rw [hsim] at h
        simp at h
      | ok r =>
        obtain ⟨c, a⟩ := r
        rw [hsim] at h
        simp only [Except.ok.injEq, Prod.mk.injEq] at h
        obtain ⟨hc, ha⟩ := h
        subst hc
        subst ha
        obtain ⟨hl1, hl2, hidx⟩ := ih cs as hmc
        refine ⟨by simp [hl1], by simp [hl2], ?_⟩
        intro i hi
        rcases Nat.lt_succ_iff_lt_or_eq.mp hi with hi' | rfl
        · rw [List.getD_append cs [c] 0 i (by omega), List.getD_append as [a] 0 i (by omega)]
          exact hidx i hi'
        · rw [List.getD_append_right cs [c] 0 i (by omega),
            List.getD_append_right as [a] 0 i (by omega), hl1, hl2]
          simpa using hsim

theorem montecarlo_aligned_witness :
    montecarlo 1 1 1 (fun _ _ => 0) 2 = .ok ([1, 1], [0, 0]) ∧
    ([1, 1] : List ℕ).length = 2 ∧ ([0, 0] : List ℚ).length = 2 ∧
    ∀ i, i < 2 →
      simulation 1 1 1 ((fun _ _ => (0 : ℚ)) i) =
        .ok (([1, 1] : List ℕ).getD i 0, ([0, 0] : List ℚ).getD i 0) := by
  have hsim : simulation 1 1 1 (fun _ => (0 : ℚ)) = .ok (1, 0) :=
    simulation_one_tick_certain 1 (fun _ => 0) (by norm_num)
  have h : montecarlo 1 1 1 (fun _ _ => 0) 2 = .ok ([1, 1], [0, 0]) := by
    rw [montecarlo, montecarlo, montecarlo]
    simp [hsim]
  obtain ⟨h1, h2, h3⟩ := montecarlo_aligned 1 1 1 (fun _ _ => 0) 2 [1, 1] [0, 0] h
  exact ⟨h, h1, h2, h3⟩
